import Mathlib

/-!
# Verification of the msmbuilder assignment engine (`src/python/assigning.py`)

Shallow embedding of the assignment engine: in-memory assignment
(`assign_in_memory`), checkpointed assignment (`assign_with_checkpoint`),
streaming assignment (`streaming_assign_with_checkpoint`), the container
setup/validation logic (`_setup_containers`, `check_container`,
`save_container`), and the write-then-rename checkpoint commit protocol.

Modelling conventions:
* A frame of a trajectory is represented by its distance vector to the
  generator set, i.e. the value `metric.one_to_all(ptraj, pgens, j)` as a
  `List ℚ` (rationals model the exact arithmetic of comparisons; the engine
  only copies and compares the metric's outputs, never computes with them).
* A trajectory is the list of its frames' distance vectors, a project the
  list of its trajectories.
* numpy arrays become lists; `arr[i, 0:n] = v` becomes an overwrite of the
  first `n` entries of row `i`; the `-1` fill becomes `List.replicate _ (-1)`.
-/

namespace Assigning

/-- A distance vector: the output of `metric.one_to_all` for one frame
against the generator set. -/
abbrev DVec := List ℚ

/-- One trajectory, represented by the distance vector of each of its frames
against the generator set. -/
abbrev TrajData := List DVec

/-- The project: its list of trajectories.  `p.length` is `project['NumTrajs']`
and `(p.getD i []).length` is `project['TrajLengths'][i]`. -/
abbrev ProjData := List TrajData

/-- The function `np.argmin`: the index of the first minimal element of the vector
(ties broken toward the smallest index).  `np.argmin` of an empty vector is
an error in numpy; the model returns `0`, and every theorem that relies on
the value carries a nonemptiness hypothesis. -/
def np_argmin : List ℚ → ℕ
  | [] => 0
  | [_] => 0
  | x :: y :: ys =>
    if (y :: ys).getD (np_argmin (y :: ys)) 0 < x then np_argmin (y :: ys) + 1 else 0

/-- The assignment row of one trajectory: `assignments[j] = np.argmin(d)` for
each frame `j` (the loop bodies at `assigning.py` lines 81-84, 117-121 and
179-183, which are textually identical). -/
def assignRowA (t : TrajData) : List ℤ :=
  t.map (fun d => (np_argmin d : ℤ))

/-- The distance row of one trajectory: `distances[j] = d[np.argmin(d)]` for
each frame `j`. -/
def assignRowD (t : TrajData) : List ℚ :=
  t.map (fun d => d.getD (np_argmin d) 0)

/-- The value `max(project['TrajLengths'])`, the number of columns of the result
matrices (0 if the project is empty). -/
def maxTrajLen (p : ProjData) : ℕ :=
  p.foldr (fun t m => max t.length m) 0

/-- Pad a list on the right with `x` up to length `m` (writing a computed row
into a row of an `-1`-initialized matrix). -/
def padTo (m : ℕ) (x : α) (l : List α) : List α :=
  l ++ List.replicate (m - l.length) x

/-- The function `assign_in_memory` (`assigning.py` lines 69-86): allocate
`(n_trajs, max_traj_length)` matrices of `-1` and fill row `i` with the
assignment/distance row of trajectory `i` for every frame `j < len(traj)`. -/
def assign_in_memory (p : ProjData) : List (List ℤ) × List (List ℚ) :=
  (p.map (fun t => padTo (maxTrajLen p) (-1) (assignRowA t)),
   p.map (fun t => padTo (maxTrajLen p) (-1) (assignRowD t)))

/-- The resumable state of a checkpointed run: the Assignment Matrix `Data`,
the Distance Matrix `Data`, and the `completed_trajectories` flag vector. -/
structure CkptState where
  allA : List (List ℤ)
  allD : List (List ℚ)
  completed : List Bool
deriving DecidableEq, Repr

/-- The slice assignment `row[i, 0:new.length] = new`: overwrite the first `new.length` entries of
`old`, keeping the rest. -/
def writeRow (old new : List α) : List α :=
  new ++ old.drop new.length

/-- One iteration of the `assign_with_checkpoint` trajectory loop
(`assigning.py` lines 107-125): skip the trajectory if its completed flag is
set; otherwise compute its row, write it into the matrices, and set the
flag. -/
def stepTraj (p : ProjData) (st : CkptState) (i : ℕ) : CkptState :=
  if st.completed.getD i false then st
  else
    let t := p.getD i []
    { allA := st.allA.set i (writeRow (st.allA.getD i []) (assignRowA t))
      allD := st.allD.set i (writeRow (st.allD.getD i []) (assignRowD t))
      completed := st.completed.set i true }

/-- The fresh container state (`save_container`): both matrices all `-1`
with shape `(n_trajs, max_n_frames)`, all completed flags false. -/
def freshState (p : ProjData) : CkptState :=
  { allA := List.replicate p.length (List.replicate (maxTrajLen p) (-1))
    allD := List.replicate p.length (List.replicate (maxTrajLen p) (-1))
    completed := List.replicate p.length false }

/-- The `for i in xrange(project['NumTrajs'])` loop of
`assign_with_checkpoint`, run from an arbitrary starting (resumed or fresh)
container state. -/
def runFrom (p : ProjData) (st : CkptState) : CkptState :=
  (List.range p.length).foldl (stepTraj p) st

/-- The function `assign_with_checkpoint` (`assigning.py` lines 89-135), as a function of
the container state produced by container setup: run the trajectory loop and
return `(all_assignments, all_distances)`.

Modelled from the spec: the container-setup call
`_setup_containers(assignments_path, distances_path, num_trajs, longest)`
used here (returning temporary paths, both matrices and the completed flags)
is absent from the source tree — only its caller appears; per the spec the
durable containers round-trip the matrices and flags exactly, so the loaded
state is passed in as `st`. -/
def assign_with_checkpoint (p : ProjData) (st : CkptState) :
    List (List ℤ) × List (List ℚ) :=
  let st2 := runFrom p st
  (st2.allA, st2.allD)

/-- The durable state after the first `N` trajectories of a fresh run have
been processed and committed: the checkpoint commit (lines 126-133) saves the
full matrices and flags, so the durable state at a commit after trajectory
`N-1` is exactly the in-memory state after the first `N` loop iterations. -/
def committedState (p : ProjData) (N : ℕ) : CkptState :=
  (List.range N).foldl (stepTraj p) (freshState p)

/-- The chunk reader `Trajectory.EnumChunksFromLHDF(filename, ChunkSize=n)`: split a
trajectory into consecutive chunks.  Each chunk holds the chunk's frames;
for `n ≥ 1` the chunks have length `n` (the last one possibly shorter). -/
def chunksOf (n : ℕ) : List α → List (List α)
  | [] => []
  | x :: xs => (x :: xs.take (n - 1)) :: chunksOf n (xs.drop (n - 1))
termination_by l => l.length
decreasing_by
  simp only [List.length_cons, List.length_drop]
  omega

/-- One iteration of the `streaming_assign_with_checkpoint` trajectory loop
(`assigning.py` lines 163-189): read the trajectory in chunks, compute
per-chunk assignment/distance rows, concatenate (`extend`) them, write the
full row, and set the completed flag. -/
def streamingStepTraj (chunkSize : ℕ) (p : ProjData) (st : CkptState) (i : ℕ) :
    CkptState :=
  if st.completed.getD i false then st
  else
    let t := p.getD i []
    let asg := ((chunksOf chunkSize t).map assignRowA).flatten
    let dst := ((chunksOf chunkSize t).map assignRowD).flatten
    { allA := st.allA.set i (writeRow (st.allA.getD i []) asg)
      allD := st.allD.set i (writeRow (st.allD.getD i []) dst)
      completed := st.completed.set i true }

/-- The function `streaming_assign_with_checkpoint` (`assigning.py` lines 137-199):
if the project's trajectory file type is not `.lh5` or `.h5`, warn and fall
back to `assign_with_checkpoint` with the same metric, project, generators,
output paths and checkpoint interval (line 150-152; `chunk_size` is not
forwarded); otherwise run the chunked trajectory loop. -/
def streaming_assign_with_checkpoint (trajFileType : String) (chunkSize : ℕ)
    (p : ProjData) (st : CkptState) : List (List ℤ) × List (List ℚ) :=
  if trajFileType ∈ ([".lh5", ".h5"] : List String) then
    let st2 := (List.range p.length).foldl (streamingStepTraj chunkSize p) st
    (st2.allA, st2.allD)
  else
    assign_with_checkpoint p st

/-! ## Container setup and validation (`_setup_containers`, lines 8-68)

A saved container (written by `msmio.saveh` / read back whole by
`msmio.loadh(.., deferred=False)`) is modelled as its dictionary of nodes,
each node recorded by its Python `len()` (its first-dimension length), which
is all `check_container` inspects. -/

/-- An on-disk HDF5 container: node names with the `len()` of each stored
array. -/
structure Container where
  entries : List (String × ℕ)
deriving DecidableEq, Repr

/-- Python `ondisk[key]` on the loaded dictionary: the stored `len()`, or a
`KeyError` if no node of that name exists. -/
def dictLen (c : Container) (key : String) : Except String ℕ :=
  match c.entries.find? (fun e => e.1 = key) with
  | some e => .ok e.2
  | none => .error ("KeyError: " ++ key)

/-- The function `save_container(filename, dtype)` (lines 43-45): save
`Data = -1*ones((n_trajs, max_n_frames))` (so `len(Data) = n_trajs`) and
`completed_trajs = zeros(n_trajs, dtype=bool)`. -/
def save_container (nTrajs maxFrames : ℕ) : Container :=
  { entries := [("Data", nTrajs), ("completed_trajs", nTrajs)] }

/-- The function `check_container(filename)` (lines 47-51), exactly as written: load the
container and raise `ValueError` when `project.n_trajs != len(ondisk['hashes'])`
(note: the lookup key is `'hashes'`; the error message reads
`len(ondisk['completed_trajs'])`). -/
def check_container (nTrajs : ℕ) (c : Container) : Except String Unit := do
  let h ← dictLen c "hashes"
  if nTrajs ≠ h then
    Except.error "ValueError: ntrajs mismatch"
  else
    Except.ok ()

/-- The checking logic of `check_container` with the lookup the function's
own error message and `save_container` use: compare `project.n_trajs` with
`len(ondisk['completed_trajs'])`. -/
def check_container_intended (nTrajs : ℕ) (c : Container) : Except String Unit := do
  let h ← dictLen c "completed_trajs"
  if nTrajs ≠ h then
    Except.error "ValueError: ntrajs mismatch"
  else
    Except.ok ()

/-- The output directory: the two optional container files
(`Assignments.h5`, `Assignments.h5.distances`) it may hold. -/
structure OutDir where
  fileA : Option Container
  fileD : Option Container
deriving DecidableEq, Repr

/-- The filesystem seen by `_setup_containers`: `none` when `outputdir` does
not exist (in which case neither container file exists). -/
abbrev SetupFS := Option OutDir

/-- The function `_setup_containers(outputdir, project)` (lines 8-68): create `outputdir`
if missing; if neither container exists, create both; if both exist, check
both; otherwise (`else` branch, line 61-62) raise
`ValueError("You're missing one of the containers")`.  Returns the updated
filesystem and the success/error outcome. -/
def _setup_containers (nTrajs maxFrames : ℕ) (fs : SetupFS) :
    SetupFS × Except String Unit :=
  let dir := fs.getD ⟨none, none⟩
  match dir.fileA, dir.fileD with
  | none, none =>
      (some ⟨some (save_container nTrajs maxFrames),
             some (save_container nTrajs maxFrames)⟩, .ok ())
  | some ca, some cd =>
      (some dir, do check_container nTrajs ca; check_container nTrajs cd)
  | _, _ =>
      (some dir, .error "ValueError: You're missing one of the containers")

/-! ## The checkpoint commit protocol (lines 126-133 and 190-197)

The commit writes the new assignments payload (`Data` plus
`completed_trajectories`) to `assignments_tmp`, the new distances payload to
`distances_tmp`, then renames `assignments_tmp` over the canonical
assignments path and `distances_tmp` over the canonical distances path, in
that order.  Renames are atomic; a crash can occur between any two steps
(a crash inside a temporary-file write only leaves a stale temporary and the
canonical files untouched, observationally the same as crashing just before
that write completed). -/

/-- The assignments-file payload: `Data` and `completed_trajectories`. -/
abbrev APayload := List (List ℤ) × List Bool

/-- The distances-file payload: `Data`. -/
abbrev DPayload := List (List ℚ)

/-- The durable files involved in a commit: the two canonical files and the
two temporary files. -/
structure DiskState where
  canonA : APayload
  canonD : DPayload
  tmpA : Option APayload
  tmpD : Option DPayload
deriving DecidableEq, Repr

/-- The write `Serializer({...}).SaveToHDF(assignments_tmp)`. -/
def writeTmpA (new : APayload) (d : DiskState) : DiskState :=
  { d with tmpA := some new }

/-- The write `Serializer({'Data': all_distances}).SaveToHDF(distances_tmp)`. -/
def writeTmpD (new : DPayload) (d : DiskState) : DiskState :=
  { d with tmpD := some new }

/-- The rename `os.rename(assignments_tmp, assignments_path)`. -/
def renameA (d : DiskState) : DiskState :=
  { d with canonA := d.tmpA.getD d.canonA, tmpA := none }

/-- The rename `os.rename(distances_tmp, distances_path)`. -/
def renameD (d : DiskState) : DiskState :=
  { d with canonD := d.tmpD.getD d.canonD, tmpD := none }

/-- The durable state after the first `k` steps of a checkpoint commit of
`(newA, newD)` (`k ≥ 4` is the completed commit): models a crash arriving
after `k` of the four commit steps. -/
def commitAfter (k : ℕ) (newA : APayload) (newD : DPayload) (d : DiskState) :
    DiskState :=
  match k with
  | 0 => d
  | 1 => writeTmpA newA d
  | 2 => writeTmpD newD (writeTmpA newA d)
  | 3 => renameA (writeTmpD newD (writeTmpA newA d))
  | _ + 4 => renameD (renameA (writeTmpD newD (writeTmpA newA d)))

/-- Modelled from the spec: the 5-result variant of `_setup_containers` that
`assign_with_checkpoint` calls (returning the temporary paths, both matrices
and the completed flags) is absent from the source tree.  Per the spec, on
startup with both canonical files present it re-opens them and returns
exactly the matrices and completed flags they hold: the assignments file
holds the Assignment Matrix and the flags, the distances file the Distance
Matrix. -/
def load_containers (a : APayload) (d : DPayload) : CkptState :=
  { allA := a.1, allD := d, completed := a.2 }

/-- The canonical file pair as left on disk by the commit at the end of
trajectory `N-1` of a fresh checkpointed run. -/
def committedFiles (p : ProjData) (N : ℕ) : APayload × DPayload :=
  (((committedState p N).allA, (committedState p N).completed),
   (committedState p N).allD)

/-! ## The metric distance contract -/

/-- Modelled from the spec: the `msmbuilder.metrics` module is not in the
source tree (only `new_tests/test_rmsd.py` exercises it).  Per the spec a
metric computes distances between prepared frames; a prepared trajectory is
its list of frames and all batch operations are pointwise applications of
the underlying frame-to-frame distance. -/
structure Metric (Frame : Type) where
  dist : Frame → Frame → ℚ

/-- Modelled from the spec: `one_to_all(prepared_a, prepared_b, index)` is
the distance from frame `index` of `prepared_a` to every frame of
`prepared_b`, in order (`f0` is the out-of-range default frame; every use
carries a valid-index hypothesis). -/
def one_to_all (m : Metric F) (f0 : F) (pa pb : List F) (index : ℕ) : DVec :=
  pb.map (m.dist (pa.getD index f0))

/-- Modelled from the spec: `one_to_many(prepared_a, prepared_b, index,
indices)` is the distance from frame `index` of `prepared_a` to only the
listed frames of `prepared_b`, in the listed order. -/
def one_to_many (m : Metric F) (f0 : F) (pa pb : List F) (index : ℕ)
    (indices : List ℕ) : DVec :=
  indices.map (fun j => m.dist (pa.getD index f0) (pb.getD j f0))

/-! ## Concrete example data (used to evaluate the theorems) -/

/-- A small example project: three trajectories of lengths 2, 1, 1 against
two generators. -/
def pEx : ProjData := [[[1, 2], [3, 0]], [[5, 4]], [[2, 2]]]

/-- A distance vector with a tie between generators 1 and 2. -/
def dEx : DVec := [2, 1, 1]

/-- An example container state with trajectory 0 already completed. -/
def stEx : CkptState :=
  { allA := [[5, 5], [-1, -1], [-1, -1]]
    allD := [[5, 5], [-1, -1], [-1, -1]]
    completed := [true, false, false] }

/-- An example metric on rational "frames": absolute difference. -/
def mEx : Metric ℚ := ⟨fun a b => |a - b|⟩

/-! ## List access helpers -/

theorem getD_oob (l : List α) (i : ℕ) (d : α) (h : l.length ≤ i) :
    l.getD i d = d := by
  rw [List.getD_eq_getElem?_getD, List.getElem?_eq_none h]
  rfl

theorem getD_set_self (l : List α) (i : ℕ) (x d : α) (h : i < l.length) :
    (l.set i x).getD i d = x := by
  rw [List.getD_eq_getElem?_getD, List.getElem?_set_self h]
  rfl

theorem getD_set_ne (l : List α) {i j : ℕ} (x d : α) (h : i ≠ j) :
    (l.set i x).getD j d = l.getD j d := by
  rw [List.getD_eq_getElem?_getD, List.getElem?_set_ne h,
    ← List.getD_eq_getElem?_getD]

theorem getD_replicate (n : ℕ) (x d : α) (i : ℕ) :
    (List.replicate n x).getD i d = if i < n then x else d := by
  rw [List.getD_eq_getElem?_getD, List.getElem?_replicate]
  split <;> rfl

theorem getD_map (f : α → β) (l : List α) (i : ℕ) (d : β) (d' : α)
    (h : i < l.length) :
    (l.map f).getD i d = f (l.getD i d') := by
  rw [List.getD_eq_getElem?_getD, List.getElem?_map, List.getElem?_eq_getElem h,
    List.getD_eq_getElem l d' h]
  rfl

theorem getD_append_left {l₁ : List α} (l₂ : List α) (i : ℕ) (d : α)
    (h : i < l₁.length) :
    (l₁ ++ l₂).getD i d = l₁.getD i d := by
  rw [List.getD_eq_getElem?_getD, List.getElem?_append, if_pos h,
    ← List.getD_eq_getElem?_getD]

theorem getD_append_right {l₁ : List α} (l₂ : List α) (i : ℕ) (d : α)
    (h : l₁.length ≤ i) :
    (l₁ ++ l₂).getD i d = l₂.getD (i - l₁.length) d := by
  rw [List.getD_eq_getElem?_getD, List.getElem?_append_right h,
    ← List.getD_eq_getElem?_getD]

theorem ext_getD {l₁ l₂ : List α} (d : α) (hlen : l₁.length = l₂.length)
    (h : ∀ i, i < l₁.length → l₁.getD i d = l₂.getD i d) : l₁ = l₂ := by
  apply List.ext_getElem?
  intro n
  by_cases hn : n < l₁.length
  · rw [List.getElem?_eq_getElem hn, List.getElem?_eq_getElem (hlen ▸ hn)]
    have hv := h n hn
    rw [List.getD_eq_getElem _ d hn, List.getD_eq_getElem _ d (hlen ▸ hn)] at hv
    exact congrArg some hv
  · rw [List.getElem?_eq_none (Nat.le_of_not_lt hn),
      List.getElem?_eq_none (by omega)]

theorem getD_mem {l : List α} {i : ℕ} (d : α) (h : i < l.length) :
    l.getD i d ∈ l := by
  rw [List.getD_eq_getElem _ _ h]
  exact List.getElem_mem h

/-! ## Properties of `np_argmin` -/

theorem np_argmin_lt_length (l : List ℚ) (h : l ≠ []) :
    np_argmin l < l.length := by
  induction l with
  | nil => exact absurd rfl h
  | cons x xs ih =>
    cases xs with
    | nil => simp [np_argmin]
    | cons y ys =>
      rw [np_argmin]
      split
      · have hlt := ih (by simp)
        simp only [List.length_cons] at hlt ⊢
        omega
      · simp

theorem np_argmin_le (l : List ℚ) (k : ℕ) (hk : k < l.length) :
    l.getD (np_argmin l) 0 ≤ l.getD k 0 := by
  induction l generalizing k with
  | nil => simp at hk
  | cons x xs ih =>
    cases xs with
    | nil =>
      have hk0 : k = 0 := by simpa using hk
      subst hk0
      simp [np_argmin]
    | cons y ys =>
      rw [np_argmin]
      split
      · rename_i hc
        rw [List.getD_cons_succ]
        cases k with
        | zero => exact le_of_lt hc
        | succ k =>
          rw [List.getD_cons_succ]
          exact ih k (by simpa using hk)
      · rename_i hc
        push_neg at hc
        rw [List.getD_cons_zero]
        cases k with
        | zero => rw [List.getD_cons_zero]
        | succ k =>
          rw [List.getD_cons_succ]
          exact le_trans hc (ih k (by simpa using hk))

theorem np_argmin_first (l : List ℚ) (k : ℕ) (hk : k < np_argmin l) :
    l.getD (np_argmin l) 0 < l.getD k 0 := by
  induction l generalizing k with
  | nil => simp [np_argmin] at hk
  | cons x xs ih =>
    cases xs with
    | nil => simp [np_argmin] at hk
    | cons y ys =>
      rw [np_argmin] at hk ⊢
      split
      · rename_i hc
        rw [List.getD_cons_succ]
        rw [if_pos hc] at hk
        cases k with
        | zero => exact hc
        | succ k =>
          rw [List.getD_cons_succ]
          exact ih k (by omega)
      · rename_i hc
        rw [if_neg hc] at hk
        omega

/-! ## Row and padding lemmas -/

theorem length_assignRowA (t : TrajData) : (assignRowA t).length = t.length :=
  List.length_map t _

theorem length_assignRowD (t : TrajData) : (assignRowD t).length = t.length :=
  List.length_map t _

theorem assignRowA_getD (t : TrajData) (j : ℕ) (d : ℤ) (hj : j < t.length) :
    (assignRowA t).getD j d = (np_argmin (t.getD j []) : ℤ) :=
  getD_map _ t j d [] hj

theorem assignRowD_getD (t : TrajData) (j : ℕ) (d : ℚ) (hj : j < t.length) :
    (assignRowD t).getD j d = (t.getD j []).getD (np_argmin (t.getD j [])) 0 :=
  getD_map _ t j d [] hj

theorem length_padTo (m : ℕ) (x : α) (l : List α) (h : l.length ≤ m) :
    (padTo m x l).length = m := by
  simp only [padTo, List.length_append, List.length_replicate]
  omega

theorem padTo_getD_left (m : ℕ) (x d : α) (l : List α) (j : ℕ)
    (hj : j < l.length) :
    (padTo m x l).getD j d = l.getD j d :=
  getD_append_left _ j d hj

theorem padTo_getD_right (m : ℕ) (x d : α) (l : List α) (j : ℕ)
    (hj : l.length ≤ j) :
    (padTo m x l).getD j d = if j < m then x else d := by
  unfold padTo
  rw [getD_append_right _ j d hj, getD_replicate]
  by_cases hjm : j < m
  · rw [if_pos (by omega), if_pos hjm]
  · rw [if_neg (by omega), if_neg hjm]

theorem writeRow_replicate (m : ℕ) (x : α) (new : List α) :
    writeRow (List.replicate m x) new = padTo m x new := by
  unfold writeRow padTo
  rw [List.drop_replicate]

theorem length_le_maxTrajLen {p : ProjData} {t : TrajData} (h : t ∈ p) :
    t.length ≤ maxTrajLen p := by
  induction p with
  | nil => simp at h
  | cons s ss ih =>
    have hmax : maxTrajLen (s :: ss) = max s.length (maxTrajLen ss) := rfl
    rcases List.mem_cons.mp h with rfl | hmem
    · rw [hmax]; exact le_max_left _ _
    · rw [hmax]; exact le_trans (ih hmem) (le_max_right _ _)

theorem getD_length_le_maxTrajLen (p : ProjData) (i : ℕ) (hi : i < p.length) :
    (p.getD i []).length ≤ maxTrajLen p :=
  length_le_maxTrajLen (getD_mem [] hi)

/-! ## Chunking lemmas (streaming mode) -/

theorem flatten_chunksOf (n : ℕ) (l : List α) : (chunksOf n l).flatten = l := by
  generalize hm : l.length = m
  induction m using Nat.strong_induction_on generalizing l with
  | _ m ih =>
    cases l with
    | nil => simp [chunksOf]
    | cons x xs =>
      rw [chunksOf, List.flatten_cons,
        ih (xs.drop (n - 1)).length (by subst hm; simp; omega) (xs.drop (n - 1)) rfl,
        List.cons_append, List.take_append_drop]

theorem chunks_map_flatten (n : ℕ) (f : α → β) (l : List α) :
    ((chunksOf n l).map (List.map f)).flatten = l.map f := by
  rw [← List.map_flatten, flatten_chunksOf]

theorem chunks_assignRowA_flatten (n : ℕ) (t : TrajData) :
    ((chunksOf n t).map assignRowA).flatten = assignRowA t :=
  chunks_map_flatten n (fun d => (np_argmin d : ℤ)) t

theorem chunks_assignRowD_flatten (n : ℕ) (t : TrajData) :
    ((chunksOf n t).map assignRowD).flatten = assignRowD t :=
  chunks_map_flatten n (fun d : DVec => d.getD (np_argmin d) 0) t

theorem streamingStepTraj_eq_stepTraj (cs : ℕ) (p : ProjData)
    (st : CkptState) (i : ℕ) :
    streamingStepTraj cs p st i = stepTraj p st i := by
  simp only [streamingStepTraj, stepTraj, chunks_assignRowA_flatten,
    chunks_assignRowD_flatten]

/-! ## Step-machine lemmas -/

theorem stepTraj_skip {p : ProjData} {st : CkptState} {i : ℕ}
    (h : st.completed.getD i false = true) : stepTraj p st i = st := by
  unfold stepTraj
  rw [if_pos h]

theorem stepTraj_compute {p : ProjData} {st : CkptState} {i : ℕ}
    (h : st.completed.getD i false = false) :
    stepTraj p st i =
      { allA := st.allA.set i
          (writeRow (st.allA.getD i []) (assignRowA (p.getD i [])))
        allD := st.allD.set i
          (writeRow (st.allD.getD i []) (assignRowD (p.getD i [])))
        completed := st.completed.set i true } := by
  unfold stepTraj
  rw [if_neg (by rw [h]; simp)]

theorem stepTraj_flag_mono {p : ProjData} {st : CkptState} {i j : ℕ}
    (h : st.completed.getD i false = true) :
    (stepTraj p st j).completed.getD i false = true := by
  unfold stepTraj
  split
  · exact h
  · by_cases hij : i = j
    · subst hij
      by_cases hlen : i < st.completed.length
      · simp only []
        rw [getD_set_self _ _ _ _ hlen]
      · simp only []
        rw [List.set_eq_of_length_le (Nat.le_of_not_lt hlen)]
        exact h
    · simp only []
      rw [getD_set_ne _ _ _ (fun hji => hij hji.symm)]
      exact h

theorem foldl_flag_mono (p : ProjData) (l : List ℕ) (st : CkptState) (i : ℕ)
    (h : st.completed.getD i false = true) :
    (l.foldl (stepTraj p) st).completed.getD i false = true := by
  induction l generalizing st with
  | nil => exact h
  | cons a as ih => exact ih _ (stepTraj_flag_mono h)

theorem foldl_skip (p : ProjData) (l : List ℕ) (st : CkptState)
    (h : ∀ i ∈ l, st.completed.getD i false = true) :
    l.foldl (stepTraj p) st = st := by
  induction l with
  | nil => rfl
  | cons a as ih =>
    rw [List.foldl_cons, stepTraj_skip (h a (by simp))]
    exact ih (fun i hi => h i (by simp [hi]))

theorem stepTraj_lengths (p : ProjData) (st : CkptState) (i : ℕ) :
    (stepTraj p st i).allA.length = st.allA.length ∧
    (stepTraj p st i).allD.length = st.allD.length ∧
    (stepTraj p st i).completed.length = st.completed.length := by
  unfold stepTraj
  split <;> simp

theorem foldl_lengths (p : ProjData) (l : List ℕ) (st : CkptState) :
    (l.foldl (stepTraj p) st).allA.length = st.allA.length ∧
    (l.foldl (stepTraj p) st).allD.length = st.allD.length ∧
    (l.foldl (stepTraj p) st).completed.length = st.completed.length := by
  induction l generalizing st with
  | nil => exact ⟨rfl, rfl, rfl⟩
  | cons a as ih =>
    have h1 := ih (stepTraj p st a)
    have h2 := stepTraj_lengths p st a
    simp only [List.foldl_cons]
    exact ⟨h1.1.trans h2.1, h1.2.1.trans h2.2.1, h1.2.2.trans h2.2.2⟩

theorem foldl_fresh_lengths (p : ProjData) (l : List ℕ) :
    (l.foldl (stepTraj p) (freshState p)).allA.length = p.length ∧
    (l.foldl (stepTraj p) (freshState p)).allD.length = p.length ∧
    (l.foldl (stepTraj p) (freshState p)).completed.length = p.length := by
  have h := foldl_lengths p l (freshState p)
  simpa [freshState] using h

theorem committedState_lengths (p : ProjData) (N : ℕ) :
    (committedState p N).allA.length = p.length ∧
    (committedState p N).allD.length = p.length ∧
    (committedState p N).completed.length = p.length :=
  foldl_fresh_lengths p (List.range N)

theorem committedState_succ (p : ProjData) (n : ℕ) :
    committedState p (n + 1) = stepTraj p (committedState p n) n := by
  show (List.range (n + 1)).foldl (stepTraj p) (freshState p) = _
  rw [List.range_succ, List.foldl_append]
  simp only [List.foldl_cons, List.foldl_nil]
  rfl

theorem committedState_flag (p : ProjData) (N i : ℕ) (hiN : i < N)
    (hip : i < p.length) :
    (committedState p N).completed.getD i false = true := by
  induction N with
  | zero => omega
  | succ n ih =>
    rw [committedState_succ]
    by_cases hin : i < n
    · exact stepTraj_flag_mono (ih hin)
    · have hieq : i = n := by omega
      subst hieq
      by_cases hflag : (committedState p i).completed.getD i false = true
      · rw [stepTraj_skip hflag]
        exact hflag
      · have hflag2 : (committedState p i).completed.getD i false = false := by
          cases hb : (committedState p i).completed.getD i false
          · rfl
          · exact absurd hb hflag
        rw [stepTraj_compute hflag2]
        exact getD_set_self _ _ _ _
          ((committedState_lengths p i).2.2.symm ▸ hip)

/-- Pointwise description of the state of a fresh checkpointed run after its
first `k` loop iterations: rows below `k` hold the computed padded rows, rows
at or above `k` are still all `-1`, and exactly the flags below `k` are set. -/
theorem foldl_fresh_spec (p : ProjData) (k : ℕ) (hk : k ≤ p.length) :
    (∀ i, i < p.length →
      ((List.range k).foldl (stepTraj p) (freshState p)).allA.getD i [] =
        if i < k then padTo (maxTrajLen p) (-1) (assignRowA (p.getD i []))
        else List.replicate (maxTrajLen p) (-1)) ∧
    (∀ i, i < p.length →
      ((List.range k).foldl (stepTraj p) (freshState p)).allD.getD i [] =
        if i < k then padTo (maxTrajLen p) (-1) (assignRowD (p.getD i []))
        else List.replicate (maxTrajLen p) (-1)) ∧
    (∀ i, i < p.length →
      ((List.range k).foldl (stepTraj p) (freshState p)).completed.getD i false =
        decide (i < k)) := by
  induction k with
  | zero =>
    simp only [List.range_zero, List.foldl_nil, freshState]
    refine ⟨fun i hi => ?_, fun i hi => ?_, fun i hi => ?_⟩ <;>
      rw [getD_replicate _ _ _ i, if_pos hi] <;> simp
  | succ n ih =>
    have hn : n < p.length := by omega
    obtain ⟨ihA, ihD, ihC⟩ := ih (by omega)
    rw [List.range_succ]
    simp only [List.foldl_append, List.foldl_cons, List.foldl_nil]
    set st := (List.range n).foldl (stepTraj p) (freshState p)
    have hflag : st.completed.getD n false = false := by
      rw [ihC n hn]
      simp
    rw [stepTraj_compute hflag]
    have hlens := foldl_fresh_lengths p (List.range n)
    refine ⟨fun i hi => ?_, fun i hi => ?_, fun i hi => ?_⟩
    · by_cases hin : i = n
      · subst hin
        rw [getD_set_self _ _ _ _ (by rw [hlens.1]; exact hi), ihA i hi,
          if_neg (by omega), writeRow_replicate, if_pos (by omega)]
      · rw [getD_set_ne _ _ _ (fun hh => hin hh.symm), ihA i hi]
        by_cases hin2 : i < n
        · rw [if_pos hin2, if_pos (by omega)]
        · rw [if_neg hin2, if_neg (by omega)]
    · by_cases hin : i = n
      · subst hin
        rw [getD_set_self _ _ _ _ (by rw [hlens.2.1]; exact hi), ihD i hi,
          if_neg (by omega), writeRow_replicate, if_pos (by omega)]
      · rw [getD_set_ne _ _ _ (fun hh => hin hh.symm), ihD i hi]
        by_cases hin2 : i < n
        · rw [if_pos hin2, if_pos (by omega)]
        · rw [if_neg hin2, if_neg (by omega)]
    · by_cases hin : i = n
      · subst hin
        rw [getD_set_self _ _ _ _ (by rw [hlens.2.2]; exact hi)]
        simp
      · rw [getD_set_ne _ _ _ (fun hh => hin hh.symm), ihC i hi]
        by_cases hin2 : i < n
        · have h1 : i < n + 1 := by omega
          simp [hin2, h1]
        · have h1 : ¬ i < n + 1 := by omega
          simp [hin2, h1]

theorem runFrom_fresh_allA (p : ProjData) :
    (runFrom p (freshState p)).allA = (assign_in_memory p).1 := by
  have hspec := (foldl_fresh_spec p p.length le_rfl).1
  have hlen : (runFrom p (freshState p)).allA.length = p.length :=
    (foldl_fresh_lengths p (List.range p.length)).1
  have hlen2 : (assign_in_memory p).1.length = p.length := by
    simp [assign_in_memory]
  apply ext_getD ([] : List ℤ) (by rw [hlen, hlen2])
  intro i hi
  rw [hlen] at hi
  have h1 : (runFrom p (freshState p)).allA.getD i [] =
      padTo (maxTrajLen p) (-1) (assignRowA (p.getD i [])) := by
    have h2 := hspec i hi
    rw [if_pos hi] at h2
    exact h2
  rw [h1]
  show _ = (p.map (fun t => padTo (maxTrajLen p) (-1) (assignRowA t))).getD i []
  rw [getD_map _ p i [] [] hi]

theorem runFrom_fresh_allD (p : ProjData) :
    (runFrom p (freshState p)).allD = (assign_in_memory p).2 := by
  have hspec := (foldl_fresh_spec p p.length le_rfl).2.1
  have hlen : (runFrom p (freshState p)).allD.length = p.length :=
    (foldl_fresh_lengths p (List.range p.length)).2.1
  have hlen2 : (assign_in_memory p).2.length = p.length := by
    simp [assign_in_memory]
  apply ext_getD ([] : List ℚ) (by rw [hlen, hlen2])
  intro i hi
  rw [hlen] at hi
  have h1 : (runFrom p (freshState p)).allD.getD i [] =
      padTo (maxTrajLen p) (-1) (assignRowD (p.getD i [])) := by
    have h2 := hspec i hi
    rw [if_pos hi] at h2
    exact h2
  rw [h1]
  show _ = (p.map (fun t => padTo (maxTrajLen p) (-1) (assignRowD t))).getD i []
  rw [getD_map _ p i [] [] hi]

/-- Resuming the trajectory loop from the durable state of any interrupted
run reaches the same final state as running it from scratch: every already
completed trajectory is skipped and the remaining ones are processed as a
fresh run would process them. -/
theorem runFrom_committed (p : ProjData) (N : ℕ) (hN : N ≤ p.length) :
    runFrom p (committedState p N) = runFrom p (freshState p) := by
  have h2 : N + (p.length - N) = p.length := by omega
  have hsplit : List.range p.length =
      List.range N ++ (List.range (p.length - N)).map (fun x => N + x) := by
    conv_lhs => rw [← h2]
    rw [List.range_add]
  show (List.range p.length).foldl (stepTraj p) (committedState p N) =
    (List.range p.length).foldl (stepTraj p) (freshState p)
  rw [hsplit, List.foldl_append, List.foldl_append]
  have hskip : (List.range N).foldl (stepTraj p) (committedState p N) =
      committedState p N :=
    foldl_skip p _ _ (fun i hi => committedState_flag p N i
      (List.mem_range.mp hi) (lt_of_lt_of_le (List.mem_range.mp hi) hN))
  rw [hskip]
  rfl

theorem streaming_foldl_eq (cs : ℕ) (p : ProjData) (l : List ℕ)
    (st : CkptState) :
    l.foldl (streamingStepTraj cs p) st = l.foldl (stepTraj p) st := by
  induction l generalizing st with
  | nil => rfl
  | cons a as ih =>
    simp only [List.foldl_cons, streamingStepTraj_eq_stepTraj]
    exact ih _

theorem inmem_rowA (p : ProjData) (i : ℕ) (hi : i < p.length) :
    (assign_in_memory p).1.getD i [] =
      padTo (maxTrajLen p) (-1) (assignRowA (p.getD i [])) := by
  show (p.map (fun t => padTo (maxTrajLen p) (-1) (assignRowA t))).getD i [] = _
  rw [getD_map _ p i [] [] hi]

theorem inmem_rowD (p : ProjData) (i : ℕ) (hi : i < p.length) :
    (assign_in_memory p).2.getD i [] =
      padTo (maxTrajLen p) (-1) (assignRowD (p.getD i [])) := by
  show (p.map (fun t => padTo (maxTrajLen p) (-1) (assignRowD t))).getD i [] = _
  rw [getD_map _ p i [] [] hi]

theorem inmem_entryA (p : ProjData) (i j : ℕ) (hi : i < p.length)
    (hj : j < (p.getD i []).length) :
    ((assign_in_memory p).1.getD i []).getD j (-1) =
      (np_argmin ((p.getD i []).getD j []) : ℤ) := by
  rw [inmem_rowA p i hi,
    padTo_getD_left _ _ _ _ j (by rw [length_assignRowA]; exact hj),
    assignRowA_getD _ j _ hj]

theorem inmem_entryD (p : ProjData) (i j : ℕ) (hi : i < p.length)
    (hj : j < (p.getD i []).length) :
    ((assign_in_memory p).2.getD i []).getD j (-1) =
      ((p.getD i []).getD j []).getD (np_argmin ((p.getD i []).getD j [])) 0 := by
  rw [inmem_rowD p i hi,
    padTo_getD_left _ _ _ _ j (by rw [length_assignRowD]; exact hj),
    assignRowD_getD _ j _ hj]

theorem streaming_run_allA (cs : ℕ) (p : ProjData) :
    ((List.range p.length).foldl (streamingStepTraj cs p)
      (freshState p)).allA = (assign_in_memory p).1 := by
  rw [streaming_foldl_eq]
  exact runFrom_fresh_allA p

theorem streaming_run_allD (cs : ℕ) (p : ProjData) :
    ((List.range p.length).foldl (streamingStepTraj cs p)
      (freshState p)).allD = (assign_in_memory p).2 := by
  rw [streaming_foldl_eq]
  exact runFrom_fresh_allD p

/-! ## Claim theorems -/

/-- C1: For every metric, project and generator set (encoded by the project
distance data), running checkpointed assignment, interrupting it after any
number `N` of committed trajectories, and re-running it to completion from
the durable container files yields final Assignment and Distance Matrices
identical to an uninterrupted `assign_in_memory` run on the same input; and
on resumption every trajectory already marked complete is skipped (the loop
iteration for it leaves the state untouched). -/
theorem checkpointed_resume_matches_in_memory (p : ProjData) (N : ℕ)
    (hN : N ≤ p.length) :
    assign_with_checkpoint p
        (load_containers (committedFiles p N).1 (committedFiles p N).2) =
      assign_in_memory p ∧
    ∀ i, i < N →
      stepTraj p ((List.range i).foldl (stepTraj p)
          (load_containers (committedFiles p N).1 (committedFiles p N).2)) i =
        (List.range i).foldl (stepTraj p)
          (load_containers (committedFiles p N).1 (committedFiles p N).2) := by
  have hload : load_containers (committedFiles p N).1 (committedFiles p N).2 =
      committedState p N := rfl
  rw [hload]
  constructor
  · simp only [assign_with_checkpoint]
    rw [runFrom_committed p N hN, runFrom_fresh_allA, runFrom_fresh_allD]
  · intro i hiN
    exact stepTraj_skip (foldl_flag_mono p _ _ i
      (committedState_flag p N i hiN (by omega)))

theorem checkpointed_resume_matches_in_memory_witness :
    1 ≤ pEx.length ∧
    (assign_with_checkpoint pEx
        (load_containers (committedFiles pEx 1).1 (committedFiles pEx 1).2) =
      assign_in_memory pEx ∧
    ∀ i, i < 1 →
      stepTraj pEx ((List.range i).foldl (stepTraj pEx)
          (load_containers (committedFiles pEx 1).1 (committedFiles pEx 1).2)) i =
        (List.range i).foldl (stepTraj pEx)
          (load_containers (committedFiles pEx 1).1 (committedFiles pEx 1).2)) :=
  ⟨by decide, checkpointed_resume_matches_in_memory pEx 1 (by decide)⟩

/-- C2 counterexample: the checkpoint commit is not atomic for the pair of
canonical files.  A crash after the first rename (step 3 of the commit)
leaves the canonical assignments file holding the new state and the
canonical distances file holding the prior state — a mixture that is neither
the prior pair nor the new pair. -/
theorem commit_pair_atomicity_counterexample :
    ((commitAfter 3 ([[1]], [true]) [[1]]
        ⟨([[0]], [false]), [[0]], none, none⟩).canonA,
     (commitAfter 3 ([[1]], [true]) [[1]]
        ⟨([[0]], [false]), [[0]], none, none⟩).canonD) ≠
      (([[0]], [false]), [[0]]) ∧
    ((commitAfter 3 ([[1]], [true]) [[1]]
        ⟨([[0]], [false]), [[0]], none, none⟩).canonA,
     (commitAfter 3 ([[1]], [true]) [[1]]
        ⟨([[0]], [false]), [[0]], none, none⟩).canonD) ≠
      (([[1]], [true]), [[1]]) := by
  decide

/-- C2 amended: a crash at any point of the commit leaves each canonical
file individually either in its prior state or in its new state (never half
written), but the pair is only one-way atomic: the reachable pairs are
(prior, prior), (new, prior) — after a crash between the two renames — and
(new, new); a crash can never leave new distances with prior assignments. -/
theorem commit_per_file_atomic (k : ℕ) (newA : APayload) (newD : DPayload)
    (st : DiskState) :
    ((commitAfter k newA newD st).canonA = st.canonA ∧
     (commitAfter k newA newD st).canonD = st.canonD) ∨
    ((commitAfter k newA newD st).canonA = newA ∧
     (commitAfter k newA newD st).canonD = st.canonD) ∨
    ((commitAfter k newA newD st).canonA = newA ∧
     (commitAfter k newA newD st).canonD = newD) := by
  match k with
  | 0 => exact Or.inl ⟨rfl, rfl⟩
  | 1 => exact Or.inl ⟨rfl, rfl⟩
  | 2 => exact Or.inl ⟨rfl, rfl⟩
  | 3 => exact Or.inr (Or.inl ⟨rfl, rfl⟩)
  | (n + 4) => exact Or.inr (Or.inr ⟨rfl, rfl⟩)

/-- C3: in every assignment mode, for every trajectory `i` and frame
`j` below the trajectory length, the recorded assignment entry is
`np_argmin` of the metric's distance vector — a valid generator index
minimizing the distance over all generators — and the recorded distance
entry is that minimal distance value; the checkpointed and streaming runs
produce the same matrices as the in-memory run. -/
theorem assignment_minimizes_distance (p : ProjData) (cs i j : ℕ)
    (hi : i < p.length) (hj : j < (p.getD i []).length)
    (hne : (p.getD i []).getD j [] ≠ []) :
    (((assign_in_memory p).1.getD i []).getD j (-1) =
        (np_argmin ((p.getD i []).getD j []) : ℤ) ∧
      np_argmin ((p.getD i []).getD j []) < ((p.getD i []).getD j []).length ∧
      (∀ k, k < ((p.getD i []).getD j []).length →
        ((p.getD i []).getD j []).getD (np_argmin ((p.getD i []).getD j [])) 0 ≤
          ((p.getD i []).getD j []).getD k 0) ∧
      ((assign_in_memory p).2.getD i []).getD j (-1) =
        ((p.getD i []).getD j []).getD (np_argmin ((p.getD i []).getD j [])) 0) ∧
    (runFrom p (freshState p)).allA = (assign_in_memory p).1 ∧
    (runFrom p (freshState p)).allD = (assign_in_memory p).2 ∧
    ((List.range p.length).foldl (streamingStepTraj cs p)
      (freshState p)).allA = (assign_in_memory p).1 ∧
    ((List.range p.length).foldl (streamingStepTraj cs p)
      (freshState p)).allD = (assign_in_memory p).2 := by
  exact ⟨⟨inmem_entryA p i j hi hj, np_argmin_lt_length _ hne,
      fun k hk => np_argmin_le _ k hk, inmem_entryD p i j hi hj⟩,
    runFrom_fresh_allA p, runFrom_fresh_allD p,
    streaming_run_allA cs p, streaming_run_allD cs p⟩

theorem assignment_minimizes_distance_witness :
    (0 < pEx.length ∧ 1 < (pEx.getD 0 []).length ∧
      (pEx.getD 0 []).getD 1 [] ≠ []) ∧
    ((((assign_in_memory pEx).1.getD 0 []).getD 1 (-1) =
        (np_argmin ((pEx.getD 0 []).getD 1 []) : ℤ) ∧
      np_argmin ((pEx.getD 0 []).getD 1 []) <
        ((pEx.getD 0 []).getD 1 []).length ∧
      (∀ k, k < ((pEx.getD 0 []).getD 1 []).length →
        ((pEx.getD 0 []).getD 1 []).getD
            (np_argmin ((pEx.getD 0 []).getD 1 [])) 0 ≤
          ((pEx.getD 0 []).getD 1 []).getD k 0) ∧
      ((assign_in_memory pEx).2.getD 0 []).getD 1 (-1) =
        ((pEx.getD 0 []).getD 1 []).getD
          (np_argmin ((pEx.getD 0 []).getD 1 [])) 0) ∧
    (runFrom pEx (freshState pEx)).allA = (assign_in_memory pEx).1 ∧
    (runFrom pEx (freshState pEx)).allD = (assign_in_memory pEx).2 ∧
    ((List.range pEx.length).foldl (streamingStepTraj 1 pEx)
      (freshState pEx)).allA = (assign_in_memory pEx).1 ∧
    ((List.range pEx.length).foldl (streamingStepTraj 1 pEx)
      (freshState pEx)).allD = (assign_in_memory pEx).2) :=
  ⟨⟨by decide, by decide, by decide⟩,
    assignment_minimizes_distance pEx 1 0 1 (by decide) (by decide) (by decide)⟩

/-- C4: evaluation of `check_container` at a valid resume state.  The
container pair written by `save_container` for a 2-trajectory project
records `completed_trajs` of length 2, agreeing with the project, and the
intended comparison succeeds — yet `check_container` reads the nonexistent
`hashes` node and fails with a `KeyError` before any count comparison, so
resumption fails on every existing container pair. -/
theorem check_container_fails_on_valid_container :
    check_container 2 (save_container 2 5) =
      Except.error "KeyError: hashes" ∧
    dictLen (save_container 2 5) "completed_trajs" = Except.ok 2 ∧
    check_container_intended 2 (save_container 2 5) = Except.ok () :=
  ⟨rfl, rfl, rfl⟩

/-- C5: if exactly one of the two checkpoint container files exists at
startup, `_setup_containers` raises
`ValueError("You're missing one of the containers")` and leaves the
filesystem unchanged — the missing file is not silently recreated and no
on-disk state is mutated. -/
theorem setup_missing_container_fails (nT mF : ℕ) (dir : OutDir)
    (h : dir.fileA.isSome ≠ dir.fileD.isSome) :
    (_setup_containers nT mF (some dir)).1 = some dir ∧
    (_setup_containers nT mF (some dir)).2 =
      Except.error "ValueError: You're missing one of the containers" := by
  obtain ⟨fa, fd⟩ := dir
  rcases fa with _ | ca <;> rcases fd with _ | cd
  · simp at h
  · exact ⟨rfl, rfl⟩
  · exact ⟨rfl, rfl⟩
  · simp at h

theorem setup_missing_container_fails_witness :
    ((OutDir.mk (some (save_container 2 5)) none).fileA.isSome ≠
      (OutDir.mk (some (save_container 2 5)) none).fileD.isSome) ∧
    ((_setup_containers 2 5 (some ⟨some (save_container 2 5), none⟩)).1 =
        some ⟨some (save_container 2 5), none⟩ ∧
     (_setup_containers 2 5 (some ⟨some (save_container 2 5), none⟩)).2 =
        Except.error "ValueError: You're missing one of the containers") :=
  ⟨by decide, setup_missing_container_fails 2 5
    ⟨some (save_container 2 5), none⟩ (by decide)⟩

/-- C6: within a single checkpointed or streaming run, the completed flag
of a trajectory is monotone: whenever it is true at some point of the run
(loaded from the checkpoint or set during the run), every further sequence
of loop iterations of either mode keeps it true. -/
theorem completed_flags_monotone (p : ProjData) (cs : ℕ) (l : List ℕ)
    (st : CkptState) (i : ℕ) (h : st.completed.getD i false = true) :
    (l.foldl (stepTraj p) st).completed.getD i false = true ∧
    (l.foldl (streamingStepTraj cs p) st).completed.getD i false = true := by
  refine ⟨foldl_flag_mono p l st i h, ?_⟩
  rw [streaming_foldl_eq]
  exact foldl_flag_mono p l st i h

theorem completed_flags_monotone_witness :
    stEx.completed.getD 0 false = true ∧
    ((([0, 1, 2] : List ℕ).foldl (stepTraj pEx) stEx).completed.getD 0 false =
        true ∧
     (([0, 1, 2] : List ℕ).foldl (streamingStepTraj 1 pEx)
        stEx).completed.getD 0 false = true) :=
  ⟨by decide, completed_flags_monotone pEx 1 [0, 1, 2] stEx 0 (by decide)⟩

/-- C7: when every distance vector of the project has length
`G = num_generators > 0`, every entry of the Assignment Matrix of any
assignment mode is either the `-1` sentinel or a cluster index in `[0, G)`,
and every entry at a column at or beyond the trajectory's true length is the
`-1` sentinel in both the Assignment and the Distance Matrix; the
checkpointed and streaming runs produce the same matrices as the in-memory
run. -/
theorem entries_in_range_or_sentinel (p : ProjData) (G cs i j : ℕ)
    (hG : 0 < G) (hwf : ∀ t ∈ p, ∀ d ∈ t, d.length = G)
    (hi : i < p.length) (hj : j < maxTrajLen p) :
    ((((assign_in_memory p).1.getD i []).getD j (-1) = -1 ∨
      (0 ≤ ((assign_in_memory p).1.getD i []).getD j (-1) ∧
       ((assign_in_memory p).1.getD i []).getD j (-1) < (G : ℤ))) ∧
     ((p.getD i []).length ≤ j →
       ((assign_in_memory p).1.getD i []).getD j (-1) = -1 ∧
       ((assign_in_memory p).2.getD i []).getD j (-1) = -1)) ∧
    (runFrom p (freshState p)).allA = (assign_in_memory p).1 ∧
    (runFrom p (freshState p)).allD = (assign_in_memory p).2 ∧
    ((List.range p.length).foldl (streamingStepTraj cs p)
      (freshState p)).allA = (assign_in_memory p).1 ∧
    ((List.range p.length).foldl (streamingStepTraj cs p)
      (freshState p)).allD = (assign_in_memory p).2 := by
  refine ⟨⟨?_, ?_⟩, runFrom_fresh_allA p, runFrom_fresh_allD p,
    streaming_run_allA cs p, streaming_run_allD cs p⟩
  · by_cases hjt : j < (p.getD i []).length
    · right
      have hd : ((p.getD i []).getD j []).length = G :=
        hwf _ (getD_mem [] hi) _ (getD_mem [] hjt)
      have hdne : (p.getD i []).getD j [] ≠ [] := by
        intro hc
        rw [hc] at hd
        simp at hd
        omega
      have hlt := np_argmin_lt_length _ hdne
      rw [hd] at hlt
      rw [inmem_entryA p i j hi hjt]
      exact ⟨Int.natCast_nonneg _, by exact_mod_cast hlt⟩
    · left
      have hjt2 : (p.getD i []).length ≤ j := by omega
      rw [inmem_rowA p i hi,
        padTo_getD_right _ _ _ _ j (by rw [length_assignRowA]; exact hjt2),
        if_pos hj]
  · intro hle
    constructor
    · rw [inmem_rowA p i hi,
        padTo_getD_right _ _ _ _ j (by rw [length_assignRowA]; exact hle),
        if_pos hj]
    · rw [inmem_rowD p i hi,
        padTo_getD_right _ _ _ _ j (by rw [length_assignRowD]; exact hle),
        if_pos hj]

theorem entries_in_range_or_sentinel_witness :
    (0 < 2 ∧ (∀ t ∈ pEx, ∀ d ∈ t, d.length = 2) ∧ 1 < pEx.length ∧
      1 < maxTrajLen pEx) ∧
    ((((assign_in_memory pEx).1.getD 1 []).getD 1 (-1) = -1 ∨
      (0 ≤ ((assign_in_memory pEx).1.getD 1 []).getD 1 (-1) ∧
       ((assign_in_memory pEx).1.getD 1 []).getD 1 (-1) < (2 : ℤ))) ∧
     ((pEx.getD 1 []).length ≤ 1 →
       ((assign_in_memory pEx).1.getD 1 []).getD 1 (-1) = -1 ∧
       ((assign_in_memory pEx).2.getD 1 []).getD 1 (-1) = -1)) ∧
    (runFrom pEx (freshState pEx)).allA = (assign_in_memory pEx).1 ∧
    (runFrom pEx (freshState pEx)).allD = (assign_in_memory pEx).2 ∧
    ((List.range pEx.length).foldl (streamingStepTraj 3 pEx)
      (freshState pEx)).allA = (assign_in_memory pEx).1 ∧
    ((List.range pEx.length).foldl (streamingStepTraj 3 pEx)
      (freshState pEx)).allD = (assign_in_memory pEx).2 :=
  ⟨⟨by decide, by decide, by decide, by decide⟩,
    entries_in_range_or_sentinel pEx 2 3 1 1 (by decide) (by decide)
      (by decide) (by decide)⟩

/-- C8: for every metric, prepared trajectories, valid frame index of the
first and valid listed frame indices of the second, `one_to_many` equals the
subsequence of `one_to_all` at the listed positions, element for element and
in order. -/
theorem one_to_many_eq_one_to_all_subsequence {F : Type} (m : Metric F)
    (f0 : F) (pa pb : List F) (index : ℕ) (indices : List ℕ)
    (hidx : index < pa.length) (hjs : ∀ j ∈ indices, j < pb.length) :
    one_to_many m f0 pa pb index indices =
      indices.map (fun j => (one_to_all m f0 pa pb index).getD j 0) := by
  unfold one_to_many one_to_all
  apply List.map_congr_left
  intro j hj
  exact (getD_map (m.dist (pa.getD index f0)) pb j 0 f0 (hjs j hj)).symm

theorem one_to_many_eq_one_to_all_subsequence_witness :
    (1 < ([0, 1] : List ℚ).length ∧
      ∀ j ∈ ([2, 0] : List ℕ), j < ([0, 2, 3] : List ℚ).length) ∧
    one_to_many mEx 0 [0, 1] [0, 2, 3] 1 [2, 0] =
      ([2, 0] : List ℕ).map
        (fun j => (one_to_all mEx 0 [0, 1] [0, 2, 3] 1).getD j 0) :=
  ⟨⟨by decide, by decide⟩,
    one_to_many_eq_one_to_all_subsequence mEx 0 [0, 1] [0, 2, 3] 1 [2, 0]
      (by decide) (by decide)⟩

/-- C9: when the project's trajectory file type is not `.lh5` or `.h5`,
`streaming_assign_with_checkpoint` returns exactly the result of
`assign_with_checkpoint` on the same project data, container state and
checkpoint configuration. -/
theorem streaming_fallback_unsupported_format (ft : String) (cs : ℕ)
    (p : ProjData) (st : CkptState)
    (h : ft ∉ ([".lh5", ".h5"] : List String)) :
    streaming_assign_with_checkpoint ft cs p st =
      assign_with_checkpoint p st := by
  unfold streaming_assign_with_checkpoint
  rw [if_neg h]

theorem streaming_fallback_unsupported_format_witness :
    (".xtc" : String) ∉ ([".lh5", ".h5"] : List String) ∧
    streaming_assign_with_checkpoint ".xtc" 10000 pEx stEx =
      assign_with_checkpoint pEx stEx :=
  ⟨by decide,
    streaming_fallback_unsupported_format ".xtc" 10000 pEx stEx (by decide)⟩

/-- C10: `np_argmin` returns the smallest index attaining the minimum of
the distance vector (every strictly smaller index has a strictly larger
value), and every assignment mode records exactly `np_argmin` of the
metric's distance vector for each frame, so the assignment output is a
deterministic function of the metric's distance outputs with ties broken
toward the smallest generator index. -/
theorem tie_break_smallest_index (d : DVec) (p : ProjData) (cs i j : ℕ)
    (hd : d ≠ []) (hi : i < p.length) (hj : j < (p.getD i []).length) :
    (np_argmin d < d.length ∧
     (∀ k, k < d.length → d.getD (np_argmin d) 0 ≤ d.getD k 0) ∧
     (∀ k, k < np_argmin d → d.getD (np_argmin d) 0 < d.getD k 0)) ∧
    (((assign_in_memory p).1.getD i []).getD j (-1) =
        (np_argmin ((p.getD i []).getD j []) : ℤ) ∧
     ((runFrom p (freshState p)).allA.getD i []).getD j (-1) =
        (np_argmin ((p.getD i []).getD j []) : ℤ) ∧
     ((((List.range p.length).foldl (streamingStepTraj cs p)
        (freshState p)).allA.getD i []).getD j (-1)) =
        (np_argmin ((p.getD i []).getD j []) : ℤ)) := by
  refine ⟨⟨np_argmin_lt_length d hd, fun k hk => np_argmin_le d k hk,
    fun k hk => np_argmin_first d k hk⟩, inmem_entryA p i j hi hj, ?_, ?_⟩
  · rw [runFrom_fresh_allA]
    exact inmem_entryA p i j hi hj
  · rw [streaming_run_allA]
    exact inmem_entryA p i j hi hj

theorem tie_break_smallest_index_witness :
    (dEx ≠ [] ∧ 2 < pEx.length ∧ 0 < (pEx.getD 2 []).length) ∧
    ((np_argmin dEx < dEx.length ∧
     (∀ k, k < dEx.length → dEx.getD (np_argmin dEx) 0 ≤ dEx.getD k 0) ∧
     (∀ k, k < np_argmin dEx → dEx.getD (np_argmin dEx) 0 < dEx.getD k 0)) ∧
    (((assign_in_memory pEx).1.getD 2 []).getD 0 (-1) =
        (np_argmin ((pEx.getD 2 []).getD 0 []) : ℤ) ∧
     ((runFrom pEx (freshState pEx)).allA.getD 2 []).getD 0 (-1) =
        (np_argmin ((pEx.getD 2 []).getD 0 []) : ℤ) ∧
     ((((List.range pEx.length).foldl (streamingStepTraj 2 pEx)
        (freshState pEx)).allA.getD 2 []).getD 0 (-1)) =
        (np_argmin ((pEx.getD 2 []).getD 0 []) : ℤ))) :=
  ⟨⟨by decide, by decide, by decide⟩,
    tie_break_smallest_index dEx pEx 2 2 0 (by decide) (by decide) (by decide)⟩

end Assigning